import Mathlib

/-!
Verification of the llms.txt build pipeline (`bin/build_llms_txt.py`).

The Python source is shallowly embedded over `Str := List Char`.  Regular
expression calls (`re.sub`, `re.findall`) are embedded through a small
backtracking matcher whose alternative order, greedy/lazy repetition and
left-to-right non-overlapping scanning follow Python's `re` semantics; each
pattern of the source is transcribed into the matcher's syntax next to a
comment quoting the original pattern string.  Character classes `\w` and `\s`
are modelled over their ASCII meaning, which covers every string the claims
are about.  BeautifulSoup documents are modelled as a tree of element and
text nodes; the network is modelled as an `Except` outcome fed to the
fetcher.
-/

set_option maxRecDepth 20000

namespace LlmsTxt

/-- Strings are modelled as lists of characters. -/
abbrev Str := List Char

/-- Coerce a Lean string literal to the `List Char` model. -/
def S (s : String) : Str := s.data

/-- ASCII whitespace, the characters Python's `\s` and `str.strip` act on
for ASCII text: space, tab, newline, carriage return, vertical tab, form
feed. -/
def isPySpace (c : Char) : Bool :=
  c = ' ' || c = '\t' || c = '\n' || c = '\r' || c = Char.ofNat 11 || c = Char.ofNat 12

/-- Python's `\w` over ASCII: letters, digits and underscore. -/
def isWordChar (c : Char) : Bool :=
  c.isAlphanum || c = '_'

/-- The backtick character (avoids a literal backtick in code). -/
def btick : Char := Char.ofNat 96

/-- `str.strip()`: drop leading and trailing whitespace. -/
def pyStrip (s : Str) : Str :=
  ((s.dropWhile isPySpace).reverse.dropWhile isPySpace).reverse

/-- `str.split(c)` for a one-character separator: split on every occurrence,
keeping empty segments. -/
def splitOnChar (c : Char) : Str → List Str
  | [] => [[]]
  | x :: xs =>
    if x = c then [] :: splitOnChar c xs
    else
      match splitOnChar c xs with
      | y :: ys => (x :: y) :: ys
      | [] => [[x]]

/-- `'\n'.join(lines)` on the list-of-lines model. -/
def joinLines : List Str → Str
  | [] => []
  | [x] => x
  | x :: xs => x ++ '\n' :: joinLines xs

/-- `line.split("  ")`: split on each non-overlapping occurrence of two
consecutive spaces, scanning left to right. -/
def splitTwoSpaces : Str → List Str
  | ' ' :: ' ' :: rest => [] :: splitTwoSpaces rest
  | c :: rest =>
    match splitTwoSpaces rest with
    | y :: ys => (c :: y) :: ys
    | [] => [[c]]
  | [] => [[]]

/-- Python's `needle in hay` substring test. -/
def containsSub : Str → Str → Bool
  | [], n => n.isPrefixOf ([] : Str)
  | c :: t, n => n.isPrefixOf (c :: t) || containsSub t n

/-- `str.lower()` over ASCII. -/
def pyLower (s : Str) : Str := s.map Char.toLower

/-! ## A small backtracking regex engine

Just enough of Python `re` for the patterns of the source file: single-
character classes, concatenation, ordered alternation, greedy and lazy
repetition of a character class, capture groups, lookahead and `\Z`.  All
repetitions in the source patterns are over single-character classes, so
repetition is represented directly as a class plus a laziness flag.
-/

/-- Regex abstract syntax. -/
inductive Re where
  /-- matches the empty string -/
  | emp : Re
  /-- one character satisfying the class -/
  | cls : (Char → Bool) → Re
  /-- concatenation -/
  | cat : Re → Re → Re
  /-- ordered alternation (left branch preferred, as in Python) -/
  | alt : Re → Re → Re
  /-- zero or more characters of a class; the flag is `true` for a lazy
  (`*?`) repetition and `false` for a greedy (`*`) one -/
  | star : (Char → Bool) → Bool → Re
  /-- zero-width lookahead `(?=...)` -/
  | look : Re → Re
  /-- numbered capture group -/
  | grp : Nat → Re → Re
  /-- end of input, `\Z` -/
  | eos : Re

/-- Captured groups of one match: group number paired with captured text,
most recently closed group first. -/
abbrev Caps := List (Nat × Str)

/-- Sequence a list of regexes. -/
def reSeq (rs : List Re) : Re := rs.foldr Re.cat Re.emp

/-- Ordered alternation of a non-empty list of regexes. -/
def reAlts : List Re → Re
  | [] => Re.emp
  | [r] => r
  | r :: rs => Re.alt r (reAlts rs)

/-- A literal character. -/
def lit (c : Char) : Re := Re.cls (fun d => d = c)

/-- A literal character matched case-insensitively (for `re.IGNORECASE`). -/
def litCI (c : Char) : Re := Re.cls (fun d => d.toLower = c.toLower)

/-- A literal word. -/
def word (w : String) : Re := reSeq (w.data.map lit)

/-- A literal word matched case-insensitively. -/
def wordCI (w : String) : Re := reSeq (w.data.map litCI)

/-- `p+`: one or more characters of a class (greedy). -/
def plus1 (p : Char → Bool) : Re := Re.cat (Re.cls p) (Re.star p false)

/-- Try the continuation after dropping each listed number of characters in
turn, returning the first success: the backtracking order of a repetition. -/
def tryIdxs (s : Str) (caps : Caps) (k : Str → Caps → Option (Str × Caps)) :
    List Nat → Option (Str × Caps)
  | [] => none
  | i :: is =>
    match k (s.drop i) caps with
    | some r => some r
    | none => tryIdxs s caps k is

/-- The backtracking matcher in continuation-passing style.  `mtch r s caps k`
attempts to match `r` at the start of `s`; on each candidate success it runs
the continuation `k` on the rest of the input, backtracking to the next
candidate when `k` fails — exactly Python's leftmost, order-respecting,
greedy-then-backtrack semantics for these constructs. -/
def mtch : Re → Str → Caps → (Str → Caps → Option (Str × Caps)) → Option (Str × Caps)
  | Re.emp, s, caps, k => k s caps
  | Re.cls p, s, caps, k =>
    match s with
    | [] => none
    | c :: rest => if p c then k rest caps else none
  | Re.cat a b, s, caps, k => mtch a s caps (fun s2 c2 => mtch b s2 c2 k)
  | Re.alt a b, s, caps, k =>
    match mtch a s caps k with
    | some r => some r
    | none => mtch b s caps k
  | Re.star p lazyRep, s, caps, k =>
    let n := (s.takeWhile p).length
    let idxs := if lazyRep then List.range (n + 1) else (List.range (n + 1)).reverse
    tryIdxs s caps k idxs
  | Re.look a, s, caps, k =>
    match mtch a s caps (fun s2 c2 => some (s2, c2)) with
    | some _ => k s caps
    | none => none
  | Re.grp n a, s, caps, k =>
    mtch a s caps (fun s2 c2 => k s2 ((n, s.take (s.length - s2.length)) :: c2))
  | Re.eos, s, caps, k =>
    match s with
    | [] => k s caps
    | _ :: _ => none

/-- Attempt a match of `r` anchored at the start of `s`; on success return
the matched text, the captures and the rest of the input. -/
def tryMatchHere (r : Re) (s : Str) : Option (Str × Caps × Str) :=
  match mtch r s [] (fun rest caps => some (rest, caps)) with
  | some (rest, caps) => some (s.take (s.length - rest.length), caps, rest)
  | none => none

/-- Look up a captured group, `""` when the group did not participate
(Python's `findall` convention). -/
def capGet (caps : Caps) (n : Nat) : Str :=
  match caps.find? (fun pr => pr.1 == n) with
  | some pr => pr.2
  | none => []

/-- The scanning loop of `re.sub`: walk left to right, replacing each
non-overlapping match and resuming after it (advancing one character past an
empty match).  The fuel is at least the number of characters plus one, which
bounds the number of steps since every step advances. -/
def scanSub (r : Re) (repl : Str × Caps → Str) : Nat → Str → Str
  | 0, s => s
  | fuel + 1, s =>
    match tryMatchHere r s with
    | some (m, caps, rest) =>
      if m.isEmpty then
        match s with
        | [] => repl (m, caps)
        | c :: s2 => repl (m, caps) ++ c :: scanSub r repl fuel s2
      else repl (m, caps) ++ scanSub r repl fuel rest
    | none =>
      match s with
      | [] => []
      | c :: s2 => c :: scanSub r repl fuel s2

/-- `re.sub(r, repl, s)`. -/
def reSub (r : Re) (repl : Str × Caps → Str) (s : Str) : Str :=
  scanSub r repl (s.length + 1) s

/-- The scanning loop of `re.findall`: collect the matched text and captures
of each non-overlapping match, left to right. -/
def scanFind (r : Re) : Nat → Str → List (Str × Caps)
  | 0, _ => []
  | fuel + 1, s =>
    match tryMatchHere r s with
    | some (m, caps, rest) =>
      (m, caps) ::
        (if m.isEmpty then
          match s with
          | [] => []
          | _ :: s2 => scanFind r fuel s2
        else scanFind r fuel rest)
    | none =>
      match s with
      | [] => []
      | _ :: s2 => scanFind r fuel s2

/-- `re.findall(r, s)` (matched text plus captures for each match). -/
def reFindall (r : Re) (s : Str) : List (Str × Caps) :=
  scanFind r (s.length + 1) s

/-! ## `clean_markdown_content`

```
content = re.sub(r'\n\s*\n\s*\n', '\n\n', content)
content = re.sub(r'\[([^\]]+)\]\([^)]+\)', r'\1', content)
content = re.sub(r'!\[([^\]]*)\]\([^)]+\)', r'', content)
content = re.sub(r'<[^>]+>', '', content)
return content.strip()
```
-/

/-- Pattern `\n\s*\n\s*\n`. -/
def blankLinesRe : Re :=
  reSeq [lit '\n', Re.star isPySpace false, lit '\n', Re.star isPySpace false, lit '\n']

/-- Pattern `\[([^\]]+)\]\([^)]+\)`. -/
def mdLinkRe : Re :=
  reSeq [lit '[', Re.grp 1 (plus1 (fun c => !(c = ']'))), lit ']',
         lit '(', plus1 (fun c => !(c = ')')), lit ')']

/-- Pattern `!\[([^\]]*)\]\([^)]+\)`. -/
def mdImageRe : Re :=
  reSeq [lit '!', lit '[', Re.grp 1 (Re.star (fun c => !(c = ']')) false), lit ']',
         lit '(', plus1 (fun c => !(c = ')')), lit ')']

/-- Pattern `<[^>]+>`. -/
def htmlTagRe : Re :=
  reSeq [lit '<', plus1 (fun c => !(c = '>')), lit '>']

/-- `clean_markdown_content`: collapse runs of blank lines, replace markdown
links by their text, remove markdown images, strip leftover HTML tags, then
strip surrounding whitespace. -/
def clean_markdown_content (content : Str) : Str :=
  let c1 := reSub blankLinesRe (fun _ => S "\n\n") content
  let c2 := reSub mdLinkRe (fun mc => capGet mc.2 1) c1
  let c3 := reSub mdImageRe (fun _ => []) c2
  let c4 := reSub htmlTagRe (fun _ => []) c3
  pyStrip c4

/-! ## `extract_key_info_from_content` -/

/-- The Key Info Record: five categorized lists of extracted strings. -/
structure KeyInfo where
  core_concepts : List Str
  endpoints : List Str
  parameters : List Str
  response_fields : List Str
  streaming_events : List Str
deriving DecidableEq, Repr

/-- One `if cond and item not in acc: acc.append(item)` loop step. -/
def addIfNew (keep : Str → Prop) [DecidablePred keep] (acc : List Str) (m : Str) : List Str :=
  if keep m ∧ m ∉ acc then acc ++ [m] else acc

/-- `re.sub(r'\s+', ' ', x)`. -/
def wsNormalize (x : Str) : Str := reSub (plus1 isPySpace) (fun _ => S " ") x

/-- Bold-marker concept pattern
`(\*\*NAME\*\*[^\.]*?)(?=\n\*\*|\n##|\Z)` (with `re.IGNORECASE`). -/
def conceptBoldRe (name : String) : Re :=
  Re.cat
    (Re.grp 1 (Re.cat (wordCI ("**" ++ name ++ "**"))
      (Re.star (fun c => !(c = '.')) true)))
    (Re.look (reAlts [Re.cat (lit '\n') (word "**"), Re.cat (lit '\n') (word "##"), Re.eos]))

/-- Loose concept pattern `A.*?B` (with `re.IGNORECASE`; `.` excludes
newline). -/
def conceptLooseRe2 (a b : String) : Re :=
  reSeq [wordCI a, Re.star (fun c => !(c = '\n')) true, wordCI b]

/-- Loose concept pattern `A.*?B.*?C` (with `re.IGNORECASE`). -/
def conceptLooseRe3 (a b c : String) : Re :=
  reSeq [wordCI a, Re.star (fun c => !(c = '\n')) true, wordCI b,
         Re.star (fun c => !(c = '\n')) true, wordCI c]

/-- The eleven `concepts_patterns` in source order, each paired with `true`
when the pattern has a capture group (so that `findall` yields the group
rather than the whole match). -/
def concepts_patterns : List (Re × Bool) :=
  [ (conceptBoldRe "Items", true),
    (conceptBoldRe "Agentic Loop", true),
    (conceptBoldRe "Semantic Streaming", true),
    (conceptBoldRe "State Machines", true),
    (conceptBoldRe "Multi-provider", true),
    (conceptBoldRe "Items → Items", true),
    (conceptLooseRe3 "Items" "atomic" "unit", false),
    (conceptLooseRe2 "Agentic" "loop", false),
    (conceptLooseRe2 "Semantic" "streaming", false),
    (conceptLooseRe2 "State" "machines", false),
    (conceptLooseRe2 "Multi" "provider", false) ]

/-- Pattern `(POST|GET|PUT|DELETE)\s+(/[\w\/\-]+)` (no flags). -/
def endpointRe : Re :=
  reSeq [Re.grp 1 (reAlts [word "POST", word "GET", word "PUT", word "DELETE"]),
         plus1 isPySpace,
         Re.grp 2 (Re.cat (lit '/') (plus1 (fun c => isWordChar c || c = '/' || c = '-')))]

/-- Pattern `` `(\w+)`\s+\([^)]*(?:string|number|boolean|integer) `` (CI). -/
def paramRe1 : Re :=
  reSeq [lit btick, Re.grp 1 (plus1 isWordChar), lit btick, plus1 isPySpace,
         lit '(', Re.star (fun c => !(c = ')')) false,
         reAlts [wordCI "string", wordCI "number", wordCI "boolean", wordCI "integer"]]

/-- Pattern `` `(\w+)`\s+.*?(?:parameter|field|argument) `` (CI). -/
def paramRe2 : Re :=
  reSeq [lit btick, Re.grp 1 (plus1 isWordChar), lit btick, plus1 isPySpace,
         Re.star (fun c => !(c = '\n')) true,
         reAlts [wordCI "parameter", wordCI "field", wordCI "argument"]]

/-- Pattern
`` `(\w+)`.*?(?:input|request|model|tool|stream|temperature|top_p|truncation|service_tier) ``
(CI). -/
def paramRe3 : Re :=
  reSeq [lit btick, Re.grp 1 (plus1 isWordChar), lit btick,
         Re.star (fun c => !(c = '\n')) true,
         reAlts [wordCI "input", wordCI "request", wordCI "model", wordCI "tool",
                 wordCI "stream", wordCI "temperature", wordCI "top_p",
                 wordCI "truncation", wordCI "service_tier"]]

/-- One branch `(\w+)\s+\(TY\)` of the fourth parameter pattern (CI). -/
def paramTypeBranch (n : Nat) (ty : String) : Re :=
  reSeq [Re.grp n (plus1 isWordChar), plus1 isPySpace, lit '(', wordCI ty, lit ')']

/-- Pattern
`(\w+)\s+\(string\)|(\w+)\s+\(number\)|(\w+)\s+\(boolean\)|(\w+)\s+\(integer\)`
(CI), groups 1–4. -/
def paramRe4 : Re :=
  reAlts [paramTypeBranch 1 "string", paramTypeBranch 2 "number",
          paramTypeBranch 3 "boolean", paramTypeBranch 4 "integer"]

/-- Pattern `` `(\w+)`\s+.*?(?:response|output|status|model|usage|error) `` (CI). -/
def fieldRe1 : Re :=
  reSeq [lit btick, Re.grp 1 (plus1 isWordChar), lit btick, plus1 isPySpace,
         Re.star (fun c => !(c = '\n')) true,
         reAlts [wordCI "response", wordCI "output", wordCI "status",
                 wordCI "model", wordCI "usage", wordCI "error"]]

/-- Pattern `` `(\w+)`\s+.*?(?:field|property|attribute) `` (CI). -/
def fieldRe2 : Re :=
  reSeq [lit btick, Re.grp 1 (plus1 isWordChar), lit btick, plus1 isPySpace,
         Re.star (fun c => !(c = '\n')) true,
         reAlts [wordCI "field", wordCI "property", wordCI "attribute"]]

/-- Pattern `(\w+)\s+.*?(?:response|output|status|model|usage|error)` (CI). -/
def fieldRe3 : Re :=
  reSeq [Re.grp 1 (plus1 isWordChar), plus1 isPySpace,
         Re.star (fun c => !(c = '\n')) true,
         reAlts [wordCI "response", wordCI "output", wordCI "status",
                 wordCI "model", wordCI "usage", wordCI "error"]]

/-- Pattern `` `(response\.[\w_]+)` `` (no flags). -/
def streamingEventRe : Re :=
  reSeq [lit btick,
         Re.grp 1 (reSeq [word "response", lit '.', plus1 isWordChar]),
         lit btick]

/-- The stop-list of the parameter loop, compared against the lowercased
candidate. -/
def param_stop_list : List Str :=
  [S "the", S "and", S "for", S "with", S "to", S "of", S "in", S "on", S "at",
   S "by", S "is", S "are", S "was", S "were", S "be", S "been", S "being",
   S "have", S "has", S "had", S "do", S "does", S "did", S "will", S "would",
   S "could", S "should", S "type", S "id", S "name", S "text", S "url",
   S "data", S "model", S "input", S "tools", S "tool", S "stream",
   S "temperature", S "top_p"]

/-- Candidates contributed by one concepts pattern: the group (or whole
match), kept when its stripped form is non-empty, then whitespace-normalized
(`re.sub(r'\s+', ' ', match.strip())`). -/
def conceptCandidates (content : Str) (pr : Re × Bool) : List Str :=
  (reFindall pr.1 content).filterMap (fun mc =>
    let raw := if pr.2 then capGet mc.2 1 else mc.1
    if pyStrip raw = [] then none else some (wsNormalize (pyStrip raw)))

/-- Candidates of a single-group pattern: the captured group of each match. -/
def grp1Candidates (r : Re) (content : Str) : List Str :=
  (reFindall r content).map (fun mc => capGet mc.2 1)

/-- Candidate of a multi-group alternation match: the first non-empty group
(`next((m for m in match_group if m), '')`). -/
def firstNonEmptyGroup (caps : Caps) (ns : List Nat) : Str :=
  match ns with
  | [] => []
  | n :: rest => if capGet caps n = [] then firstNonEmptyGroup caps rest else capGet caps n

/-- `extract_key_info_from_content`: run the fixed battery of patterns over
the text and accumulate each category as a deduplicated, order-preserving,
capped list. -/
def extract_key_info_from_content (content : Str) : KeyInfo :=
  let conceptCands := concepts_patterns.flatMap (conceptCandidates content)
  let core_concepts :=
    (conceptCands.foldl (addIfNew (fun m => 10 < m.length)) []).take 5
  let endpointCands := (reFindall endpointRe content).map (fun mc =>
    capGet mc.2 1 ++ S " " ++ capGet mc.2 2)
  let endpoints := (endpointCands.foldl (addIfNew (fun _ => True)) []).take 10
  let paramCands :=
    grp1Candidates paramRe1 content ++ grp1Candidates paramRe2 content ++
    grp1Candidates paramRe3 content ++
    (reFindall paramRe4 content).map (fun mc => firstNonEmptyGroup mc.2 [1, 2, 3, 4])
  let parameters :=
    (paramCands.foldl
      (addIfNew (fun m => m ≠ [] ∧ 2 < m.length ∧ pyLower m ∉ param_stop_list)) []).take 20
  let fieldCands :=
    grp1Candidates fieldRe1 content ++ grp1Candidates fieldRe2 content ++
    grp1Candidates fieldRe3 content
  let response_fields :=
    (fieldCands.foldl (addIfNew (fun m => m ≠ [] ∧ 2 < m.length)) []).take 20
  let eventCands := grp1Candidates streamingEventRe content
  let streaming_events := (eventCands.foldl (addIfNew (fun _ => True)) []).take 15
  ⟨core_concepts, endpoints, parameters, response_fields, streaming_events⟩

/-! ## HTML model and `extract_mdx_like_content_from_html`

A parsed BeautifulSoup document is modelled as a tree of element nodes (tag,
optional class attribute, children) and text nodes.  The class attribute is
modelled as its full text; since none of the searched-for substrings contains
a space, substring search on the full attribute text agrees with
BeautifulSoup's per-class-value matching.  The embedded function takes the
parsed tree (parsing itself is the library's job, outside the source file).
-/

mutual
inductive Html where
  | elem : Str → Option Str → HtmlList → Html
  | txt : Str → Html
deriving DecidableEq

inductive HtmlList where
  | nil : HtmlList
  | cons : Html → HtmlList → HtmlList
deriving DecidableEq
end

/-- Build an `HtmlList` from a list. -/
def htmlList : List Html → HtmlList
  | [] => HtmlList.nil
  | h :: t => HtmlList.cons h (htmlList t)

mutual
/-- `for script in soup(["script", "style"]): script.decompose()` — remove
`script`/`style` elements together with their subtrees. -/
def stripScriptsH : Html → Option Html
  | Html.txt s => some (Html.txt s)
  | Html.elem tg c ch =>
    if tg = S "script" ∨ tg = S "style" then none
    else some (Html.elem tg c (stripScriptsL ch))

def stripScriptsL : HtmlList → HtmlList
  | HtmlList.nil => HtmlList.nil
  | HtmlList.cons h t =>
    match stripScriptsH h with
    | some u => HtmlList.cons u (stripScriptsL t)
    | none => stripScriptsL t
end

/-- The soup after decomposing scripts and styles (an empty text node when
the whole document was removed). -/
def cleanTree (t : Html) : Html := (stripScriptsH t).getD (Html.txt [])

mutual
/-- `soup.find_all(p)`: every element node satisfying `p`, in document
(pre-order) order. -/
def findAllH (p : Html → Bool) : Html → List Html
  | Html.txt _ => []
  | Html.elem tg c ch =>
    (if p (Html.elem tg c ch) then [Html.elem tg c ch] else []) ++ findAllL p ch

def findAllL (p : Html → Bool) : HtmlList → List Html
  | HtmlList.nil => []
  | HtmlList.cons h t => findAllH p h ++ findAllL p t
end

mutual
/-- `soup.body`: the first element with the given tag, document order. -/
def findTagH (name : Str) : Html → Option Html
  | Html.txt _ => none
  | Html.elem tg c ch =>
    if tg = name then some (Html.elem tg c ch) else findTagL name ch

def findTagL (name : Str) : HtmlList → Option Html
  | HtmlList.nil => none
  | HtmlList.cons h t =>
    match findTagH name h with
    | some u => some u
    | none => findTagL name t
end

mutual
/-- The text-node strings of a subtree in document order (BeautifulSoup's
`.strings`). -/
def textsH : Html → List Str
  | Html.txt s => [s]
  | Html.elem _ _ ch => textsL ch

def textsL : HtmlList → List Str
  | HtmlList.nil => []
  | HtmlList.cons h t => textsH h ++ textsL t
end

/-- `area.get_text(separator='\n')`. -/
def getTextNl (t : Html) : Str := joinLines (textsH t)

/-- The class-attribute filter
`lambda x: x and ('content' in x or 'main' in x or 'doc' in x or 'page' in x)`. -/
def classHintMatch : Option Str → Bool
  | none => false
  | some x =>
    containsSub x (S "content") || containsSub x (S "main") ||
    containsSub x (S "doc") || containsSub x (S "page")

/-- The `find_all(['main', 'article', 'div'], attrs={'class': ...})`
predicate on a node. -/
def contentAreaPred : Html → Bool
  | Html.elem tg c _ =>
    (tg = S "main" ∨ tg = S "article" ∨ tg = S "div") ∧ classHintMatch c
  | Html.txt _ => false

/-- The result of `find_all(['main', 'article', 'div'], attrs={'class': ...})`
on the script-stripped document. -/
def contentAreasOf (doc : Html) : List Html :=
  findAllH contentAreaPred (cleanTree doc)

/-- The `content_areas` list actually iterated: the `find_all` result, or the
fallback `[soup.body] if soup.body else [soup]` when it is empty. -/
def selectedContentAreas (doc : Html) : List Html :=
  if contentAreasOf doc = [] then
    match findTagH (S "body") (cleanTree doc) with
    | some b => [b]
    | none => [cleanTree doc]
  else contentAreasOf doc

/-- `extract_mdx_like_content_from_html` on the parsed document tree. -/
def extract_mdx_like_content_from_html (doc : Html) : Str :=
  let content_areas := selectedContentAreas doc
  let extracted_content :=
    content_areas.foldl (fun acc area => acc ++ getTextNl area ++ ['\n']) []
  let ls := (splitOnChar '\n' extracted_content).map pyStrip
  let chunks := ls.flatMap (fun l => (splitTwoSpaces l).map pyStrip)
  joinLines (chunks.filter (fun c => c ≠ []))

/-! ## `fetch_web_content`

The network is modelled as the outcome of `requests.get`: either a transport
error or a response carrying a status code and a body.  `raise_for_status`
raises exactly on the error statuses (HTTP status codes are below 600, so
"at least 400" captures them). -/

/-- A `requests` response. -/
structure HttpResponse where
  status_code : Nat
  text : Str
deriving DecidableEq

/-- `response.raise_for_status()`. -/
def raise_for_status (r : HttpResponse) : Except Unit Unit :=
  if 400 ≤ r.status_code then Except.error () else Except.ok ()

/-- The body of the `try:` block of `fetch_web_content`. -/
def fetchAttempt (net : Except Unit HttpResponse) : Except Unit Str := do
  let r ← net
  let _ ← raise_for_status r
  pure r.text

/-- `fetch_web_content`: return the body text on success, the empty string on
any `requests.RequestException` (transport error or error status). -/
def fetch_web_content (net : Except Unit HttpResponse) : Str :=
  match fetchAttempt net with
  | Except.ok t => t
  | Except.error _ => []

/-! ## Document assembly (`generate_llms_txt_from_docs`) -/

/-- `"- {c}"`. -/
def bulletLine (c : Str) : Str := '-' :: ' ' :: c

/-- ``f"- `{x}`"``. -/
def bulletCodeLine (x : Str) : Str := '-' :: ' ' :: btick :: (x ++ [btick])

/-- The fixed title and summary blockquote lines. -/
def header_lines : List Str :=
  [S "# Open Responses",
   [],
   S "> Open Responses is an open, vendor-neutral specification for large language model APIs that defines a shared schema, consistent streaming/events, and extensible tooling to enable interoperable LLM workflows across different providers. It standardizes LLM interfaces while maintaining flexibility for provider-specific extensions and advanced agentic capabilities.",
   []]

/-- The Core Concepts section, emitted when `core_concepts` is non-empty. -/
def conceptsBlock (ki : KeyInfo) : List Str :=
  if ki.core_concepts = [] then []
  else [S "## Core Concepts", []] ++ ki.core_concepts.map bulletLine ++ [[]]

/-- The API section, emitted when there are endpoints or parameters. -/
def apiBlock (ki : KeyInfo) : List Str :=
  if ki.endpoints = [] ∧ ki.parameters = [] then []
  else
    [S "## API", []] ++
    (if ki.endpoints = [] then []
     else [S "### Endpoints"] ++ ki.endpoints.map bulletCodeLine ++ [[]]) ++
    (if ki.parameters = [] then []
     else [S "### Key Parameters"] ++ ki.parameters.map bulletCodeLine ++ [[]])

/-- The Streaming Events section, emitted when `streaming_events` is
non-empty. -/
def streamingBlock (ki : KeyInfo) : List Str :=
  if ki.streaming_events = [] then []
  else [S "## Streaming Events", []] ++ ki.streaming_events.map bulletCodeLine ++ [[]]

/-- The fixed Resources section. -/
def resources_lines : List Str :=
  [S "## Resources",
   [],
   S "- [API Reference](https://www.openresponses.org/reference): Detailed API documentation with all endpoints, parameters, and response structures",
   S "- [Specification](https://www.openresponses.org/specification): Complete technical specification with detailed concepts and implementation guidelines",
   S "- [Compliance](https://www.openresponses.org/compliance): Acceptance tests and validation procedures",
   S "- [Governance](https://www.openresponses.org/governance): Technical charter and governance structure",
   S "- [Changelog](https://www.openresponses.org/changelog): Version history and updates",
   []]

/-- The fixed Documentation section. -/
def documentation_lines : List Str :=
  [S "## Documentation",
   [],
   S "- [Overview](https://www.openresponses.org/): Introduction to Open Responses",
   S "- [Specification](https://www.openresponses.org/specification): Complete technical specification",
   S "- [API Reference](https://www.openresponses.org/reference): Detailed API documentation",
   S "- [Compliance](https://www.openresponses.org/compliance): Acceptance tests and validation",
   S "- [Governance](https://www.openresponses.org/governance): Technical charter and governance structure",
   S "- [Changelog](https://www.openresponses.org/changelog): Version history and updates",
   []]

/-- The fixed Examples section. -/
def examples_lines : List Str :=
  [S "## Examples",
   [],
   S "- [cURL Snippets](https://www.openresponses.org/curl_snippets/curl_snippets.yaml): YAML file with cURL examples for various API calls",
   S "- [OpenAPI Specification](https://www.openresponses.org/openapi/openapi.json): Complete OpenAPI specification in JSON format",
   []]

/-- The always-emitted static tail of the document. -/
def static_lines : List Str :=
  resources_lines ++ documentation_lines ++ examples_lines

/-- The full ordered line sequence of the generated document.  The argument
is `some ki` when the specification page fetch returned non-empty HTML whose
extraction produced `ki`, and `none` when the fetch returned the empty
string (in which case the conditional sections are skipped entirely). -/
def doc_lines (ext : Option KeyInfo) : List Str :=
  header_lines ++
  (match ext with
   | some ki => conceptsBlock ki ++ apiBlock ki ++ streamingBlock ki
   | none => []) ++
  static_lines

/-! ## `validate_llms_txt` -/

/-- The validation record computed from the written file's content. -/
structure ValidationResult where
  h1_found : Bool
  blockquote_found : Bool
  h2_count : Nat
  links_found : Bool
  valid : Bool
deriving DecidableEq

/-- `validate_llms_txt` on the file content: check the llms.txt structural
predicates line by line and return `(valid, results)`. -/
def validate_llms_txt (content : Str) : Bool × ValidationResult :=
  let lines := splitOnChar '\n' content
  let h1_found := lines.any (fun l => (S "# ").isPrefixOf l)
  let blockquote_found := lines.any (fun l => (S "> ").isPrefixOf l)
  let h2_count := lines.countP (fun l => (S "## ").isPrefixOf l)
  let links_found := lines.any (fun l =>
    decide ('[' ∈ l) && decide (']' ∈ l) && decide ('(' ∈ l) && decide (')' ∈ l))
  let valid := h1_found && blockquote_found && decide (1 ≤ h2_count)
  (valid, ⟨h1_found, blockquote_found, h2_count, links_found, valid⟩)

/-- End-to-end generation: assemble the document from the (possibly absent)
fetched specification page, validate it, and raise `ValueError` — modelled as
`Except.error` — when validation fails. -/
def generate_llms_txt_from_docs (spec_page : Option Html) : Except Unit Bool :=
  let lines := doc_lines (spec_page.map (fun t =>
    extract_key_info_from_content (clean_markdown_content
      (extract_mdx_like_content_from_html t))))
  let v := validate_llms_txt (joinLines lines)
  if v.1 then Except.ok v.1 else Except.error ()

/-! ## Concrete test inputs named by the claims -/

/-- Text containing 30 distinct backtick-quoted `response.`-prefixed
tokens. -/
def streamCapInput : Str :=
  S "`response.e01` `response.e02` `response.e03` `response.e04` `response.e05` `response.e06` `response.e07` `response.e08` `response.e09` `response.e10` `response.e11` `response.e12` `response.e13` `response.e14` `response.e15` `response.e16` `response.e17` `response.e18` `response.e19` `response.e20` `response.e21` `response.e22` `response.e23` `response.e24` `response.e25` `response.e26` `response.e27` `response.e28` `response.e29` `response.e30`"

/-- The first 15 of those tokens, in order of first appearance. -/
def streamCapExpected : List Str :=
  [S "response.e01", S "response.e02", S "response.e03", S "response.e04",
   S "response.e05", S "response.e06", S "response.e07", S "response.e08",
   S "response.e09", S "response.e10", S "response.e11", S "response.e12",
   S "response.e13", S "response.e14", S "response.e15"]

/-- The deduplication example of the spec:
`` `foo` (string) ... `bar` (string) ... `foo` (string) ``. -/
def fooBarInput : Str :=
  S "`foo` (string) ... `bar` (string) ... `foo` (string)"

/-- All element nodes of a document tree, in document order. -/
def allElems (t : Html) : List Html := findAllH (fun _ => true) t

/-- Example document: a `div` whose class is `main-content`, next to a
`div` whose class hints at nothing. -/
def egMainDiv : Html :=
  Html.elem (S "div") (some (S "main-content")) (htmlList [Html.txt (S "Hello")])

/-- A document containing `egMainDiv`. -/
def egTree : Html :=
  Html.elem (S "html") none (htmlList
    [Html.elem (S "body") none (htmlList
      [egMainDiv,
       Html.elem (S "div") (some (S "sidebar")) (htmlList [Html.txt (S "side")])])])

/-- The body element of `egPlainTree`. -/
def egBody : Html :=
  Html.elem (S "body") none (htmlList [Html.txt (S "plain text")])

/-- A document with no content-area hints at all, so that selection falls
back to the body element. -/
def egPlainTree : Html :=
  Html.elem (S "html") none (htmlList [egBody])

/-! # Lemmas -/

/-- Folding an append-if-new step preserves `Nodup`. -/
theorem foldl_addIfNew_nodup (keep : Str → Prop) [DecidablePred keep] :
    ∀ (l acc : List Str), acc.Nodup → (l.foldl (addIfNew keep) acc).Nodup := by
  intro l
  induction l with
  | nil => intro acc h; exact h
  | cons m t ih =>
    intro acc h
    rw [List.foldl_cons]
    apply ih
    unfold addIfNew
    split
    · next hc =>
      rw [List.nodup_append]
      refine ⟨h, List.nodup_singleton m, ?_⟩
      intro a ha hb
      simp only [List.mem_singleton] at hb
      subst hb
      exact hc.2 ha
    · exact h

/-- `dropWhile` leaves a list that is empty or starts with a failing
element. -/
theorem dropWhile_head_not (p : Char → Bool) :
    ∀ l : Str, l.dropWhile p = [] ∨ ∃ c t, l.dropWhile p = c :: t ∧ p c = false := by
  intro l
  induction l with
  | nil => exact Or.inl rfl
  | cons a t ih =>
    by_cases h : p a = true
    · rw [List.dropWhile_cons_of_pos h]; exact ih
    · rw [List.dropWhile_cons_of_neg h]
      exact Or.inr ⟨a, t, rfl, by simpa using h⟩

/-- `dropWhile` keeps a list whose head already fails the predicate. -/
theorem dropWhile_eq_self_of_head (p : Char → Bool) (l : Str)
    (h : l = [] ∨ ∃ c t, l = c :: t ∧ p c = false) : l.dropWhile p = l := by
  rcases h with rfl | ⟨c, t, rfl, hc⟩
  · rfl
  · rw [List.dropWhile_cons_of_neg (by simp [hc])]

/-- `dropWhile` is idempotent. -/
theorem dropWhile_idem (p : Char → Bool) (l : Str) :
    (l.dropWhile p).dropWhile p = l.dropWhile p :=
  dropWhile_eq_self_of_head p _ (dropWhile_head_not p l)

/-- Characters of a stripped string come from the original. -/
theorem pyStrip_subset (s : Str) : ∀ c, c ∈ pyStrip s → c ∈ s := by
  intro c hc
  unfold pyStrip at hc
  rw [List.mem_reverse] at hc
  have h1 : c ∈ (s.dropWhile isPySpace).reverse :=
    (List.dropWhile_sublist _).subset hc
  rw [List.mem_reverse] at h1
  exact (List.dropWhile_sublist _).subset h1

/-- A stripped string is empty or starts with a non-space character. -/
theorem pyStrip_head_not (s : Str) :
    pyStrip s = [] ∨ ∃ c t, pyStrip s = c :: t ∧ isPySpace c = false := by
  have hpre : pyStrip s <+: s.dropWhile isPySpace := by
    have hsuf : ((s.dropWhile isPySpace).reverse.dropWhile isPySpace) <:+
        (s.dropWhile isPySpace).reverse := List.dropWhile_suffix isPySpace
    have h2 := List.reverse_prefix.mpr hsuf
    rw [List.reverse_reverse] at h2
    exact h2
  rcases dropWhile_head_not isPySpace s with h | ⟨c, t, h, hc⟩
  · rw [h] at hpre
    exact Or.inl (List.prefix_nil.mp hpre)
  · cases hps : pyStrip s with
    | nil => exact Or.inl rfl
    | cons c2 t2 =>
      rw [hps, h] at hpre
      obtain ⟨r, hr⟩ := hpre
      rw [List.cons_append] at hr
      injection hr with h1 _
      exact Or.inr ⟨c2, t2, rfl, h1 ▸ hc⟩

/-- Stripping is idempotent. -/
theorem pyStrip_idem (s : Str) : pyStrip (pyStrip s) = pyStrip s := by
  have h1 : (pyStrip s).dropWhile isPySpace = pyStrip s :=
    dropWhile_eq_self_of_head _ _ (pyStrip_head_not s)
  show ((((pyStrip s).dropWhile isPySpace).reverse.dropWhile isPySpace).reverse) = pyStrip s
  rw [h1]
  have h2 : (pyStrip s).reverse = (s.dropWhile isPySpace).reverse.dropWhile isPySpace := by
    unfold pyStrip; rw [List.reverse_reverse]
  rw [h2, dropWhile_idem, ← h2, List.reverse_reverse]

/-- When no match can start anywhere (witnessed by a predicate preserved by
taking tails), substitution is the identity. -/
theorem scanSub_eq_self (r : Re) (repl : Str × Caps → Str) (bad : Str → Prop)
    (hnone : ∀ s, bad s → tryMatchHere r s = none)
    (htail : ∀ c s, bad (c :: s) → bad s) :
    ∀ (fuel : Nat) (s : Str), bad s → scanSub r repl fuel s = s := by
  intro fuel
  induction fuel with
  | zero => intro s _; rfl
  | succ f ih =>
    intro s hs
    cases s with
    | nil => simp [scanSub, hnone [] hs]
    | cons c t => simp [scanSub, hnone (c :: t) hs, ih t (htail c t hs)]

/-- A pattern that begins with a character class fails on the empty input. -/
theorem tryMatchHere_cat_cls_nil (p : Char → Bool) (r2 : Re) :
    tryMatchHere (Re.cat (Re.cls p) r2) [] = none := rfl

/-- A pattern that begins with a character class fails when the first
character is outside the class. -/
theorem tryMatchHere_cat_cls_cons (p : Char → Bool) (r2 : Re) (c : Char) (t : Str)
    (h : p c = false) : tryMatchHere (Re.cat (Re.cls p) r2) (c :: t) = none := by
  simp [tryMatchHere, mtch, h]

/-- The blank-line pattern never matches in a newline-free string. -/
theorem reSub_blank_id (s : Str) (h : '\n' ∉ s) :
    reSub blankLinesRe (fun _ => S "\n\n") s = s := by
  apply scanSub_eq_self _ _ (fun t : Str => '\n' ∉ t) ?_ ?_ _ _ h
  · intro t ht
    cases t with
    | nil => rfl
    | cons c t2 =>
      have hc : ¬(c = '\n') := fun he => ht (he ▸ List.mem_cons_self c t2)
      exact tryMatchHere_cat_cls_cons _ _ c t2 (by simp [hc])
  · intro c t2 hct hm
    exact hct (List.mem_cons_of_mem c hm)

/-- The markdown-link pattern never matches without an opening bracket. -/
theorem reSub_link_id (s : Str) (h : '[' ∉ s) :
    reSub mdLinkRe (fun mc => capGet mc.2 1) s = s := by
  apply scanSub_eq_self _ _ (fun t : Str => '[' ∉ t) ?_ ?_ _ _ h
  · intro t ht
    cases t with
    | nil => rfl
    | cons c t2 =>
      have hc : ¬(c = '[') := fun he => ht (he ▸ List.mem_cons_self c t2)
      exact tryMatchHere_cat_cls_cons _ _ c t2 (by simp [hc])
  · intro c t2 hct hm
    exact hct (List.mem_cons_of_mem c hm)

/-- The image pattern never matches without an opening bracket. -/
theorem reSub_image_id (s : Str) (h : '[' ∉ s) :
    reSub mdImageRe (fun _ => []) s = s := by
  apply scanSub_eq_self _ _ (fun t : Str => '[' ∉ t) ?_ ?_ _ _ h
  · intro t ht
    cases t with
    | nil => rfl
    | cons c t2 =>
      by_cases hc : c = '!'
      · subst hc
        cases t2 with
        | nil => rfl
        | cons c2 t3 =>
          have h2 : ¬(c2 = '[') := fun he =>
            ht (he ▸ List.mem_cons_of_mem '!' (List.mem_cons_self c2 t3))
          simp [tryMatchHere, mdImageRe, reSeq, mtch, lit, h2]
      · exact tryMatchHere_cat_cls_cons _ _ c t2 (by simp [hc])
  · intro c t2 hct hm
    exact hct (List.mem_cons_of_mem c hm)

/-- The HTML-tag pattern never matches without an opening angle bracket. -/
theorem reSub_tag_id (s : Str) (h : '<' ∉ s) :
    reSub htmlTagRe (fun _ => []) s = s := by
  apply scanSub_eq_self _ _ (fun t : Str => '<' ∉ t) ?_ ?_ _ _ h
  · intro t ht
    cases t with
    | nil => rfl
    | cons c t2 =>
      have hc : ¬(c = '<') := fun he => ht (he ▸ List.mem_cons_self c t2)
      exact tryMatchHere_cat_cls_cons _ _ c t2 (by simp [hc])
  · intro c t2 hct hm
    exact hct (List.mem_cons_of_mem c hm)

/-- `splitOnChar` never returns the empty list of segments. -/
theorem splitOnChar_ne_nil (c : Char) : ∀ s : Str, splitOnChar c s ≠ [] := by
  intro s
  induction s with
  | nil => simp [splitOnChar]
  | cons x xs ih =>
    by_cases hx : x = c
    · simp [splitOnChar, hx]
    · cases hsp : splitOnChar c xs with
      | nil => exact absurd hsp ih
      | cons y ys => simp [splitOnChar, hx, hsp]

/-- Splitting a cons on a non-separator prepends to the first segment. -/
theorem splitOnChar_cons_ne (c x : Char) (xs : Str) (h : ¬(x = c)) :
    ∃ y ys, splitOnChar c xs = y :: ys ∧ splitOnChar c (x :: xs) = (x :: y) :: ys := by
  cases hsp : splitOnChar c xs with
  | nil => exact absurd hsp (splitOnChar_ne_nil c xs)
  | cons y ys => exact ⟨y, ys, rfl, by simp [splitOnChar, h, hsp]⟩

/-- Splitting a separator-free string yields that string alone. -/
theorem splitOnChar_no_mem (c : Char) : ∀ s : Str, c ∉ s → splitOnChar c s = [s] := by
  intro s
  induction s with
  | nil => intro _; rfl
  | cons x xs ih =>
    intro h
    have hx : ¬(x = c) := fun he => h (he ▸ List.mem_cons_self x xs)
    obtain ⟨y, ys, h1, h2⟩ := splitOnChar_cons_ne c x xs hx
    rw [ih (fun hm => h (List.mem_cons_of_mem x hm))] at h1
    cases h1
    exact h2

/-- Splitting distributes over an explicit separator occurrence. -/
theorem splitOnChar_append (c : Char) :
    ∀ (a b : Str), splitOnChar c (a ++ c :: b) = splitOnChar c a ++ splitOnChar c b := by
  intro a
  induction a with
  | nil => intro b; simp [splitOnChar]
  | cons x a2 ih =>
    intro b
    by_cases hx : x = c
    · subst hx
      simp only [List.cons_append]
      simp [splitOnChar, ih b]
    · obtain ⟨y2, ys2, h2, h2c⟩ := splitOnChar_cons_ne c x a2 hx
      have key : splitOnChar c (a2 ++ c :: b) = y2 :: (ys2 ++ splitOnChar c b) := by
        rw [ih b, h2]; rfl
      obtain ⟨y3, ys3, h3, h3c⟩ := splitOnChar_cons_ne c x (a2 ++ c :: b) hx
      rw [key] at h3
      cases h3
      rw [List.cons_append, h3c, h2c]
      rfl

/-- A newline-free line of a joined document reappears when the document is
split back into lines. -/
theorem mem_splitOnChar_joinLines :
    ∀ (l : List Str) (x : Str), x ∈ l → '\n' ∉ x →
      x ∈ splitOnChar '\n' (joinLines l) := by
  intro l
  induction l with
  | nil => intro x hx _; cases hx
  | cons a t ih =>
    intro x hx hc
    cases t with
    | nil =>
      rw [List.mem_singleton] at hx
      subst hx
      show x ∈ splitOnChar '\n' x
      rw [splitOnChar_no_mem _ _ hc]
      exact List.mem_singleton.mpr rfl
    | cons b t2 =>
      have hjoin : joinLines (a :: b :: t2) = a ++ '\n' :: joinLines (b :: t2) := rfl
      rw [hjoin, splitOnChar_append]
      rcases List.mem_cons.mp hx with hx | hx
      · subst hx
        apply List.mem_append_left
        rw [splitOnChar_no_mem _ _ hc]
        exact List.mem_singleton.mpr rfl
      · exact List.mem_append_right _ (ih x hx hc)

mutual
/-- `find_all` with a predicate returns exactly the element nodes that
satisfy it. -/
theorem mem_findAllH (p : Html → Bool) (e : Html) :
    ∀ t : Html, e ∈ findAllH p t ↔ (e ∈ findAllH (fun _ => true) t ∧ p e = true)
  | Html.txt s => by simp [findAllH]
  | Html.elem tg c ch => by
    have hm := mem_findAllL p e ch
    by_cases hp : p (Html.elem tg c ch) = true
    · simp only [findAllH, if_pos hp, if_true, List.mem_append, List.mem_singleton, hm]
      constructor
      · rintro (rfl | ⟨h1, h2⟩)
        · exact ⟨Or.inl rfl, hp⟩
        · exact ⟨Or.inr h1, h2⟩
      · rintro ⟨rfl | h1, h2⟩
        · exact Or.inl rfl
        · exact Or.inr ⟨h1, h2⟩
    · simp only [findAllH, if_neg hp, if_true, List.mem_append, List.mem_singleton,
        List.not_mem_nil, false_or, hm]
      constructor
      · rintro ⟨h1, h2⟩
        exact ⟨Or.inr h1, h2⟩
      · rintro ⟨rfl | h1, h2⟩
        · exact absurd h2 hp
        · exact ⟨h1, h2⟩

theorem mem_findAllL (p : Html → Bool) (e : Html) :
    ∀ l : HtmlList, e ∈ findAllL p l ↔ (e ∈ findAllL (fun _ => true) l ∧ p e = true)
  | HtmlList.nil => by simp [findAllL]
  | HtmlList.cons h t => by
    have h1 := mem_findAllH p e h
    have h2 := mem_findAllL p e t
    simp only [findAllL, List.mem_append, h1, h2]
    tauto
end

/-- The substring scanner agrees with list infixhood. -/
theorem containsSub_iff (needle : Str) :
    ∀ hay : Str, containsSub hay needle = true ↔ needle <:+: hay := by
  intro hay
  induction hay with
  | nil =>
    simp [containsSub, List.isPrefixOf_iff_prefix]
  | cons c t ih =>
    simp only [containsSub, Bool.or_eq_true, List.isPrefixOf_iff_prefix, ih,
      List.infix_cons_iff]

/-- Bullet lines start with a dash. -/
theorem headD_bulletLine (c : Str) : (bulletLine c).headD ' ' = '-' := rfl

/-- Code bullet lines start with a dash. -/
theorem headD_bulletCodeLine (c : Str) : (bulletCodeLine c).headD ' ' = '-' := rfl

/-! # Claim theorems -/

/-- C1: evaluating the cleaner at the spec's example input.  Because the
link rule runs before the image rule and matches the bracketed part of
`![img](http://y)`, the code returns `"See Docs and !img here"` — the image
is not removed entirely and the rule order does matter, contradicting the
claimed output `"See Docs and  here"`. -/
theorem clean_markdown_image_not_removed :
    clean_markdown_content (S "See [Docs](http://x) and ![img](http://y) here") =
      S "See Docs and !img here" := by decide

/-- C5 counterexample: the cleaner is not idempotent.  On `"[[x](u)](v)"`
one application yields `"[x](v)"` and a second application yields `"x"`. -/
theorem clean_markdown_not_idempotent :
    clean_markdown_content (clean_markdown_content (S "[[x](u)](v)")) ≠
      clean_markdown_content (S "[[x](u)](v)") := by decide

/-- C5 (amended): the cleaner is idempotent on every string containing no
opening bracket, no opening angle bracket and no newline — in particular on
already-clean prose; on such strings one application only strips surrounding
whitespace, which is idempotent. -/
theorem clean_markdown_idempotent_on_plain :
    ∀ s : Str, '[' ∉ s → '<' ∉ s → '\n' ∉ s →
      clean_markdown_content (clean_markdown_content s) = clean_markdown_content s := by
  have hclean : ∀ t : Str, '[' ∉ t → '<' ∉ t → '\n' ∉ t →
      clean_markdown_content t = pyStrip t := by
    intro t ha hb hc
    show pyStrip (reSub htmlTagRe (fun _ => []) (reSub mdImageRe (fun _ => [])
      (reSub mdLinkRe (fun mc => capGet mc.2 1)
        (reSub blankLinesRe (fun _ => S "\n\n") t)))) = pyStrip t
    rw [reSub_blank_id t hc, reSub_link_id t ha, reSub_image_id t ha, reSub_tag_id t hb]
  intro s h1 h2 h3
  have hps := pyStrip_subset s
  rw [hclean s h1 h2 h3,
      hclean (pyStrip s) (fun hm => h1 (hps _ hm)) (fun hm => h2 (hps _ hm))
        (fun hm => h3 (hps _ hm)),
      pyStrip_idem]

/-- C5 witness: idempotence at a concrete already-clean string. -/
theorem clean_markdown_idempotent_on_plain_w :
    ('[' ∉ S "already clean text!") ∧ ('<' ∉ S "already clean text!") ∧
    ('\n' ∉ S "already clean text!") ∧
    clean_markdown_content (clean_markdown_content (S "already clean text!")) =
      clean_markdown_content (S "already clean text!") :=
  ⟨by decide, by decide, by decide,
   clean_markdown_idempotent_on_plain (S "already clean text!")
     (by decide) (by decide) (by decide)⟩

/-- C2: every extracted list is duplicate-free and capped (5 / 10 / 20 / 20 /
15); text with 30 distinct backtick-quoted `response.`-prefixed tokens yields
exactly the first 15 in order of first appearance; the
`` `foo` … `bar` … `foo` `` text yields parameters `["foo", "bar"]`. -/
theorem extract_key_info_invariants :
    (∀ content : Str,
      (extract_key_info_from_content content).core_concepts.Nodup ∧
      (extract_key_info_from_content content).endpoints.Nodup ∧
      (extract_key_info_from_content content).parameters.Nodup ∧
      (extract_key_info_from_content content).response_fields.Nodup ∧
      (extract_key_info_from_content content).streaming_events.Nodup ∧
      (extract_key_info_from_content content).core_concepts.length ≤ 5 ∧
      (extract_key_info_from_content content).endpoints.length ≤ 10 ∧
      (extract_key_info_from_content content).parameters.length ≤ 20 ∧
      (extract_key_info_from_content content).response_fields.length ≤ 20 ∧
      (extract_key_info_from_content content).streaming_events.length ≤ 15) ∧
    (extract_key_info_from_content streamCapInput).streaming_events = streamCapExpected ∧
    (extract_key_info_from_content fooBarInput).parameters = [S "foo", S "bar"] := by
  refine ⟨?_, by decide, by decide⟩
  intro content
  unfold extract_key_info_from_content
  dsimp only
  refine ⟨?_, ?_, ?_, ?_, ?_, ?_, ?_, ?_, ?_, ?_⟩ <;>
    first
      | exact (List.take_sublist _ _).nodup (foldl_addIfNew_nodup _ _ _ List.nodup_nil)
      | exact List.length_take_le _ _

/-- C7: the fetcher never lets an exception escape — a transport error or an
error status produces the empty string, a success status produces the
response body. -/
theorem fetch_web_content_no_raise :
    ∀ net : Except Unit HttpResponse,
      (∀ e, net = Except.error e → fetch_web_content net = []) ∧
      (∀ r, net = Except.ok r →
        (400 ≤ r.status_code → fetch_web_content net = []) ∧
        (r.status_code < 400 → fetch_web_content net = r.text)) := by
  intro net
  constructor
  · rintro e rfl
    rfl
  · rintro r rfl
    constructor
    · intro h
      unfold fetch_web_content fetchAttempt raise_for_status
      simp [h, Bind.bind, Except.bind, Functor.map, Except.map]
    · intro h
      unfold fetch_web_content fetchAttempt raise_for_status
      simp [Nat.not_le.mpr h, Bind.bind, Except.bind, Functor.map, Except.map, Pure.pure,
        Except.pure]

/-- C7 witness: the fetcher at a transport error, an error status and a
success. -/
theorem fetch_web_content_no_raise_w :
    fetch_web_content (Except.error ()) = [] ∧
    fetch_web_content (Except.ok ⟨404, S "nope"⟩) = [] ∧
    fetch_web_content (Except.ok ⟨200, S "body"⟩) = S "body" :=
  ⟨(fetch_web_content_no_raise (Except.error ())).1 () rfl,
   ((fetch_web_content_no_raise (Except.ok ⟨404, S "nope"⟩)).2 ⟨404, S "nope"⟩ rfl).1
     (by decide),
   ((fetch_web_content_no_raise (Except.ok ⟨200, S "body"⟩)).2 ⟨200, S "body"⟩ rfl).2
     (by decide)⟩

/-- C10: the assembled document does not depend on `response_fields` — two
records agreeing on the other four lists produce identical line sequences. -/
theorem response_fields_not_consumed :
    ∀ ki1 ki2 : KeyInfo,
      ki1.core_concepts = ki2.core_concepts →
      ki1.endpoints = ki2.endpoints →
      ki1.parameters = ki2.parameters →
      ki1.streaming_events = ki2.streaming_events →
      doc_lines (some ki1) = doc_lines (some ki2) := by
  rintro ⟨c1, e1, p1, r1, s1⟩ ⟨c2, e2, p2, r2, s2⟩ h1 h2 h3 h4
  dsimp only at h1 h2 h3 h4
  subst h1
  subst h2
  subst h3
  subst h4
  rfl

/-- C10 witness: two records differing only in `response_fields`. -/
theorem response_fields_not_consumed_w :
    doc_lines (some ⟨[], [], [], [], []⟩) = doc_lines (some ⟨[], [], [], [S "x"], []⟩) :=
  response_fields_not_consumed _ _ rfl rfl rfl rfl

/-- C8: whenever extraction finds nothing at all, the document is exactly the
fixed header plus the three static sections, and it validates: one `# ` line,
one `> ` line, three `## ` lines, `valid = true`. -/
theorem empty_extraction_document_valid :
    ∀ content : Str,
      extract_key_info_from_content content = (⟨[], [], [], [], []⟩ : KeyInfo) →
      doc_lines (some (extract_key_info_from_content content)) =
          header_lines ++ static_lines ∧
      (splitOnChar '\n' (joinLines (doc_lines (some
          (extract_key_info_from_content content))))).countP
          (fun l => (S "# ").isPrefixOf l) = 1 ∧
      (splitOnChar '\n' (joinLines (doc_lines (some
          (extract_key_info_from_content content))))).countP
          (fun l => (S "> ").isPrefixOf l) = 1 ∧
      (splitOnChar '\n' (joinLines (doc_lines (some
          (extract_key_info_from_content content))))).countP
          (fun l => (S "## ").isPrefixOf l) = 3 ∧
      (validate_llms_txt (joinLines (doc_lines (some
          (extract_key_info_from_content content))))).1 = true := by
  intro content h
  rw [h]
  exact ⟨by decide, by decide, by decide, by decide, by decide⟩

/-- C8 witness: the empty page extracts nothing and the resulting document
validates. -/
theorem empty_extraction_document_valid_w :
    extract_key_info_from_content [] = (⟨[], [], [], [], []⟩ : KeyInfo) ∧
    (validate_llms_txt (joinLines (doc_lines (some
        (extract_key_info_from_content []))))).1 = true :=
  ⟨by decide, (empty_extraction_document_valid [] (by decide)).2.2.2.2⟩

/-- C3: validity is exactly "some `# ` line, some `> ` line, at least one
`## ` line" — a function of the three required predicates alone, so
`links_found` cannot affect it — and a file with no `> ` line is invalid with
`blockquote_found = false`. -/
theorem validate_llms_txt_characterization :
    ∀ content : Str,
      ((validate_llms_txt content).2.valid = true ↔
        ((∃ l ∈ splitOnChar '\n' content, (S "# ").isPrefixOf l = true) ∧
         (∃ l ∈ splitOnChar '\n' content, (S "> ").isPrefixOf l = true) ∧
         1 ≤ (splitOnChar '\n' content).countP (fun l => (S "## ").isPrefixOf l))) ∧
      ((validate_llms_txt content).1 = (validate_llms_txt content).2.valid) ∧
      ((validate_llms_txt content).2.valid =
        ((validate_llms_txt content).2.h1_found &&
         (validate_llms_txt content).2.blockquote_found &&
         decide (1 ≤ (validate_llms_txt content).2.h2_count))) ∧
      ((∀ l ∈ splitOnChar '\n' content, ¬((S "> ").isPrefixOf l = true)) →
        (validate_llms_txt content).1 = false ∧
        (validate_llms_txt content).2.blockquote_found = false) := by
  intro content
  unfold validate_llms_txt
  dsimp only
  refine ⟨?_, rfl, rfl, ?_⟩
  · simp only [Bool.and_eq_true, List.any_eq_true, decide_eq_true_eq]
    tauto
  · intro hno
    have hbq : (splitOnChar '\n' content).any (fun l => (S "> ").isPrefixOf l) = false :=
      List.any_eq_false.mpr hno
    rw [hbq]
    simp

/-- C3 witness: a file with an H1 and an H2 but no blockquote line. -/
theorem validate_llms_txt_characterization_w :
    (∀ l ∈ splitOnChar '\n' (S "# t\n## s"), ¬((S "> ").isPrefixOf l = true)) ∧
    ((validate_llms_txt (S "# t\n## s")).1 = false ∧
     (validate_llms_txt (S "# t\n## s")).2.blockquote_found = false) :=
  ⟨by decide, (validate_llms_txt_characterization (S "# t\n## s")).2.2.2 (by decide)⟩

/-- C9: whatever the fetch outcome and whatever the Key Info Record — even
one never produced by extraction — the assembled document keeps the fixed
`# Open Responses` line, the fixed blockquote and the three static `## `
sections, so validation always succeeds and the `ValueError` branch is
unreachable. -/
theorem generated_document_always_valid :
    (∀ ext : Option KeyInfo,
      (validate_llms_txt (joinLines (doc_lines ext))).1 = true) ∧
    (∀ page : Option Html, generate_llms_txt_from_docs page = Except.ok true) := by
  have main : ∀ ext : Option KeyInfo,
      (validate_llms_txt (joinLines (doc_lines ext))).1 = true := by
    intro ext
    have hmemh : ∀ x ∈ header_lines, x ∈ doc_lines ext := by
      intro x hx
      unfold doc_lines
      exact List.mem_append_left _ (List.mem_append_left _ hx)
    have hmems : ∀ x ∈ static_lines, x ∈ doc_lines ext := by
      intro x hx
      unfold doc_lines
      exact List.mem_append_right _ hx
    obtain ⟨a, ha, hpa, hna⟩ :
        ∃ a ∈ header_lines, (S "# ").isPrefixOf a = true ∧ '\n' ∉ a := by decide
    obtain ⟨b, hb, hpb, hnb⟩ :
        ∃ b ∈ header_lines, (S "> ").isPrefixOf b = true ∧ '\n' ∉ b := by decide
    obtain ⟨c, hc, hpc, hnc⟩ :
        ∃ c ∈ static_lines, (S "## ").isPrefixOf c = true ∧ '\n' ∉ c := by decide
    have ha2 : a ∈ splitOnChar '\n' (joinLines (doc_lines ext)) :=
      mem_splitOnChar_joinLines _ a (hmemh a ha) hna
    have hb2 : b ∈ splitOnChar '\n' (joinLines (doc_lines ext)) :=
      mem_splitOnChar_joinLines _ b (hmemh b hb) hnb
    have hc2 : c ∈ splitOnChar '\n' (joinLines (doc_lines ext)) :=
      mem_splitOnChar_joinLines _ c (hmems c hc) hnc
    unfold validate_llms_txt
    dsimp only
    simp only [Bool.and_eq_true, List.any_eq_true, decide_eq_true_eq]
    exact ⟨⟨⟨a, ha2, hpa⟩, ⟨b, hb2, hpb⟩⟩, List.countP_pos_iff.mpr ⟨c, hc2, hpc⟩⟩
  refine ⟨main, ?_⟩
  intro page
  unfold generate_llms_txt_from_docs
  dsimp only
  rw [main (page.map (fun t => extract_key_info_from_content (clean_markdown_content
    (extract_mdx_like_content_from_html t))))]
  simp

/-- A string that does not start with a dash is not a bullet line. -/
theorem not_mem_bullet_map (target : Str) (h : ¬(target.headD ' ' = '-'))
    (f : Str → Str) (hf : ∀ c, (f c).headD ' ' = '-') (l : List Str) :
    target ∉ l.map f := by
  intro hmem
  obtain ⟨c, _, hc⟩ := List.mem_map.mp hmem
  apply h
  rw [← hc, hf]

/-- A non-dash target is absent from a section of fixed lines plus bullet
lines. -/
theorem not_mem_section (target : Str) (pre post : List Str) (l : List Str)
    (f : Str → Str) (hf : ∀ c, (f c).headD ' ' = '-')
    (hpre : target ∉ pre) (hpost : target ∉ post)
    (hht : ¬(target.headD ' ' = '-')) : target ∉ pre ++ l.map f ++ post := by
  intro hmem
  rcases List.mem_append.mp hmem with hmem | hmem
  · rcases List.mem_append.mp hmem with hmem | hmem
    · exact hpre hmem
    · exact not_mem_bullet_map target hht f hf l hmem
  · exact hpost hmem

/-- The Streaming Events heading never occurs in the Core Concepts block. -/
theorem streaming_heading_not_mem_conceptsBlock (ki : KeyInfo) :
    (S "## Streaming Events") ∉ conceptsBlock ki := by
  unfold conceptsBlock
  split
  · exact List.not_mem_nil _
  · exact not_mem_section _ _ _ _ _ headD_bulletLine (by decide) (by decide) (by decide)

/-- The Streaming Events heading never occurs in the API block. -/
theorem streaming_heading_not_mem_apiBlock (ki : KeyInfo) :
    (S "## Streaming Events") ∉ apiBlock ki := by
  unfold apiBlock
  split
  · exact List.not_mem_nil _
  · intro hmem
    have hep : (S "## Streaming Events") ∉
        (if ki.endpoints = [] then ([] : List Str)
         else [S "### Endpoints"] ++ ki.endpoints.map bulletCodeLine ++ [[]]) := by
      split
      · exact List.not_mem_nil _
      · exact not_mem_section _ _ _ _ _ headD_bulletCodeLine (by decide) (by decide)
          (by decide)
    have hpp : (S "## Streaming Events") ∉
        (if ki.parameters = [] then ([] : List Str)
         else [S "### Key Parameters"] ++ ki.parameters.map bulletCodeLine ++ [[]]) := by
      split
      · exact List.not_mem_nil _
      · exact not_mem_section _ _ _ _ _ headD_bulletCodeLine (by decide) (by decide)
          (by decide)
    rcases List.mem_append.mp hmem with hmem | hmem
    · rcases List.mem_append.mp hmem with hmem | hmem
      · exact absurd hmem (by decide)
      · exact hep hmem
    · exact hpp hmem

/-- C4: the assembler emits the `## Streaming Events` heading exactly when
`streaming_events` is non-empty (with one bullet per event), and always
emits the static Resources, Documentation and Examples sections with their
fixed link lines. -/
theorem streaming_section_iff :
    ∀ ki : KeyInfo,
      ((S "## Streaming Events") ∈ doc_lines (some ki) ↔ ki.streaming_events ≠ []) ∧
      (∀ e ∈ ki.streaming_events, bulletCodeLine e ∈ doc_lines (some ki)) ∧
      (∀ x ∈ static_lines, x ∈ doc_lines (some ki)) ∧
      (S "## Resources") ∈ doc_lines (some ki) ∧
      (S "## Documentation") ∈ doc_lines (some ki) ∧
      (S "## Examples") ∈ doc_lines (some ki) := by
  intro ki
  have hstatic : ∀ x ∈ static_lines, x ∈ doc_lines (some ki) := by
    intro x hx
    unfold doc_lines
    exact List.mem_append_right _ hx
  have hmid : ∀ x, x ∈ streamingBlock ki → x ∈ doc_lines (some ki) := by
    intro x hx
    unfold doc_lines
    exact List.mem_append_left _ (List.mem_append_right _ (List.mem_append_right _ hx))
  refine ⟨⟨?_, ?_⟩, ?_, hstatic, hstatic _ (by decide), hstatic _ (by decide),
    hstatic _ (by decide)⟩
  · -- membership forces a non-empty streaming list
    intro hmem hempty
    have hsb : streamingBlock ki = [] := by
      unfold streamingBlock
      rw [if_pos hempty]
    unfold doc_lines at hmem
    rcases List.mem_append.mp hmem with hmem | hmem
    · rcases List.mem_append.mp hmem with hmem | hmem
      · exact absurd hmem (by decide)
      · rcases List.mem_append.mp hmem with hmem | hmem
        · rcases List.mem_append.mp hmem with hmem | hmem
          · exact streaming_heading_not_mem_conceptsBlock ki hmem
          · exact streaming_heading_not_mem_apiBlock ki hmem
        · rw [hsb] at hmem
          exact List.not_mem_nil _ hmem
    · exact absurd hmem (by decide)
  · -- a non-empty streaming list puts the heading in the document
    intro hne
    apply hmid
    unfold streamingBlock
    rw [if_neg hne]
    exact List.mem_append_left _ (List.mem_append_left _ (by simp))
  · -- each event contributes its bullet line
    intro e he
    apply hmid
    unfold streamingBlock
    rw [if_neg (List.ne_nil_of_mem he)]
    exact List.mem_append_left _
      (List.mem_append_right _ (List.mem_map_of_mem bulletCodeLine he))

/-- C4 witness: a record with one streaming event and one without. -/
theorem streaming_section_iff_w :
    ((S "## Streaming Events") ∈ doc_lines (some ⟨[], [], [], [], [S "response.done"]⟩)) ∧
    ((S "## Streaming Events") ∉ doc_lines (some ⟨[], [], [], [], []⟩)) ∧
    ((S "## Resources") ∈ doc_lines (some ⟨[], [], [], [], []⟩)) :=
  ⟨((streaming_section_iff ⟨[], [], [], [], [S "response.done"]⟩).1).mpr (by decide),
   fun hmem => ((streaming_section_iff ⟨[], [], [], [], []⟩).1).mp hmem (by decide),
   (streaming_section_iff ⟨[], [], [], [], []⟩).2.2.2.1⟩

/-- The content-area predicate in elementary terms: a `main`, `article` or
`div` element whose class attribute has one of the four hint substrings. -/
theorem contentAreaPred_iff (e : Html) :
    contentAreaPred e = true ↔
      ∃ tg cls ch, e = Html.elem tg cls ch ∧
        (tg = S "main" ∨ tg = S "article" ∨ tg = S "div") ∧
        ∃ x, cls = some x ∧
          (S "content" <:+: x ∨ S "main" <:+: x ∨ S "doc" <:+: x ∨ S "page" <:+: x) := by
  cases e with
  | txt s => simp [contentAreaPred]
  | elem tg cls ch =>
    cases cls with
    | none =>
      simp [contentAreaPred, classHintMatch]
    | some x =>
      simp only [contentAreaPred, classHintMatch, decide_eq_true_eq, Bool.or_eq_true,
        containsSub_iff]
      constructor
      · rintro ⟨htag, hcls⟩
        refine ⟨tg, some x, ch, rfl, htag, x, rfl, ?_⟩
        tauto
      · rintro ⟨tg2, cls2, ch2, heq, htag, x2, hx2, hcls⟩
        injection heq with h1 h2 h3
        subst h1
        subst h2
        injection hx2 with h4
        subst h4
        refine ⟨htag, ?_⟩
        tauto

/-- C6: main-content extraction selects exactly the `main`/`article`/`div`
elements whose class attribute contains `content`, `main`, `doc` or `page`
as a case-sensitive substring (so a `div` with class `main-content` is
selected), and falls back to the body element — or the whole tree — only
when no such element exists. -/
theorem content_area_selection :
    (∀ t e : Html, e ∈ contentAreasOf t ↔
      (e ∈ allElems (cleanTree t) ∧
       ∃ tg cls ch, e = Html.elem tg cls ch ∧
         (tg = S "main" ∨ tg = S "article" ∨ tg = S "div") ∧
         ∃ x, cls = some x ∧
           (S "content" <:+: x ∨ S "main" <:+: x ∨ S "doc" <:+: x ∨ S "page" <:+: x))) ∧
    (∀ t : Html, contentAreasOf t = [] →
      selectedContentAreas t = (match findTagH (S "body") (cleanTree t) with
        | some b => [b]
        | none => [cleanTree t])) ∧
    contentAreasOf egTree = [egMainDiv] ∧
    selectedContentAreas egTree = [egMainDiv] := by
  refine ⟨?_, ?_, by decide, by decide⟩
  · intro t e
    unfold contentAreasOf allElems
    rw [mem_findAllH, contentAreaPred_iff]
  · intro t h
    unfold selectedContentAreas
    rw [if_pos h]

/-- C6 witness: a document with no hinted content area falls back to its
body element. -/
theorem content_area_selection_w :
    contentAreasOf egPlainTree = [] ∧ selectedContentAreas egPlainTree = [egBody] :=
  ⟨by decide, (content_area_selection.2.1 egPlainTree (by decide)).trans (by decide)⟩

end LlmsTxt
